import Mathlib

/-!
Verification of the finding-consolidation and delta-tracking pipeline of the
ai-code-reviewer repository, as a shallow embedding in Lean 4.

Conventions of the embedding:
- Python `str` is modelled as `List Char` (`Str`); concrete strings are
  written as Lean string literals converted with `.data`.  Case folding is
  ASCII (all inputs of interest are ASCII).
- Python `float` is modelled as `ℚ` (exact rational arithmetic; binary
  floating-point rounding artifacts are not modelled).
- Python `int` is modelled as `ℤ` (or `ℕ` for values that are counts or
  non-negative line counters in the source).
- Python `dict.get` / JSON-absent fields are modelled with `Option`;
  a JSON `null` and an absent key are conflated (the source treats them
  identically in every place modelled here, via `dict.get` defaults and
  `or` fallbacks).
- Python sets are modelled as lists built in insertion order; all uses in
  the source are order-insensitive (membership tests and set equality).
- Python `list.sort` (stable) is modelled by a stable insertion sort.
-/

/-- Python `str` is modelled as a list of characters. -/
abbrev Str := List Char

/-- ASCII whitespace recognised by Python's `str.strip()` (the source only
ever strips ASCII whitespace in practice). -/
def isPyWs (c : Char) : Bool :=
  c = ' ' || c = '\t' || c = '\n' || c = '\r' || c = '\x0b' || c = '\x0c'

/-- Python `str.strip()`: drop whitespace from both ends. -/
def pyStrip (s : Str) : Str :=
  ((s.dropWhile isPyWs).reverse.dropWhile isPyWs).reverse

/-- Python `str.lower()` (ASCII case folding). -/
def pyLower (s : Str) : Str := s.map Char.toLower

/-- `needle.isPrefix-of haystack` test written out, mirroring Python
`str.startswith`. -/
def strStarts (needle s : Str) : Bool :=
  match needle, s with
  | [], _ => true
  | _ :: _, [] => false
  | a :: as, b :: bs => a = b && strStarts as bs

/-- Python `needle in haystack` substring test. -/
def strContains (needle s : Str) : Bool :=
  match s with
  | [] => strStarts needle []
  | _ :: rest => strStarts needle s || strContains needle rest

/-- Helper for `dedupFirst`: keep elements not yet seen. -/
def dedupFirstAux [DecidableEq α] (seen : List α) : List α → List α
  | [] => []
  | x :: xs =>
    if x ∈ seen then dedupFirstAux seen xs
    else x :: dedupFirstAux (x :: seen) xs

/-- First-seen-order deduplication, mirroring Python
`list(dict.fromkeys(xs))`. -/
def dedupFirst [DecidableEq α] (l : List α) : List α := dedupFirstAux [] l

/-- Little-endian decimal digits of `n` (with `fuel ≥ n` forcing structural
recursion; `natDigitsRev n.succ n` is always enough fuel). -/
def natDigitsRev (fuel : Nat) (n : Nat) : List Nat :=
  match fuel with
  | 0 => []
  | f + 1 => if n = 0 then [] else n % 10 :: natDigitsRev f (n / 10)

/-- The character for a decimal digit. -/
def digitChr (d : Nat) : Char := Char.ofNat (48 + d)

/-- Numeric value of a decimal digit character. -/
def digitVal (c : Char) : Nat := c.toNat - 48

/-- Decimal rendering of a natural number, as Python `str(n)` produces. -/
def renderNat (n : Nat) : Str :=
  if n = 0 then ['0'] else ((natDigitsRev (n + 1) n).map digitChr).reverse

/-- Decimal rendering of an integer. -/
def renderInt (i : Int) : Str :=
  if i < 0 then '-' :: renderNat i.natAbs else renderNat i.natAbs

/-- Python `s.split("\n")`: `""` splits to `[""]`. -/
def splitNl : Str → List Str
  | [] => [[]]
  | c :: rest =>
    if c = '\n' then [] :: splitNl rest
    else
      match splitNl rest with
      | [] => [[c]]
      | h :: t => (c :: h) :: t

/-- Python `"\n".join(lines)` at the character level. -/
def intercalateNl : List Str → Str
  | [] => []
  | [l] => l
  | l :: rest => l ++ '\n' :: intercalateNl rest

/-- Python `max(xs, key=key)` for a nonempty list given as head and tail:
returns the first element attaining the maximal key (later elements replace
the current best only on a strictly greater key). -/
def pyMaxBy [LinearOrder β] (key : α → β) (x : α) (xs : List α) : α :=
  xs.foldl (fun best y => if key best < key y then y else best) x

/-- Insert `x` into `l` keeping `le`-order; `x` goes after existing
`le`-equal elements, which makes the resulting sort stable, exactly like
Python's `list.sort`. -/
def pyInsort (le : α → α → Bool) (x : α) : List α → List α
  | [] => [x]
  | y :: ys => if le y x then y :: pyInsort le x ys else x :: y :: ys

/-- Stable sort with respect to the boolean total preorder `le`, modelling
Python's stable `list.sort(key=...)`. -/
def pySort (le : α → α → Bool) : List α → List α
  | [] => []
  | x :: xs => pyInsort le x (pySort le xs)

/-- Python `int(q)` on a float: truncation toward zero. -/
def truncInt (q : ℚ) : ℤ :=
  if q < 0 then -(Int.floor (-q)) else Int.floor q

/-- Round to the nearest integer, ties to even — Python's `round` on the
exact rational value. -/
def roundHalfEven (q : ℚ) : ℤ :=
  let f : ℤ := Int.floor q
  let r : ℚ := q - f
  if r < 1 / 2 then f
  else if 1 / 2 < r then f + 1
  else if Even f then f else f + 1

/-- Python `round(q, 2)` on the exact rational value. -/
def round2 (q : ℚ) : ℚ := (roundHalfEven (q * 100) : ℚ) / 100

/-!
## difflib.SequenceMatcher

The source computes text similarity with
`SequenceMatcher(None, a, b).ratio()`.  We model the classic matching-blocks
algorithm: repeatedly find the longest matching block (ties resolved exactly
as difflib does: scanning end positions left to right in `a`, then in `b`,
and keeping the first strictly-better block), recurse on both sides, and
sum the matched sizes.  The autojunk heuristic is not modelled; it only
activates when the second sequence has length ≥ 200, and no property proved
here depends on it (both the code side and the spec side of every claim use
this same similarity function).
-/

/-- Do position `i` of `a` and `j` of `b` hold the same character? -/
def matchAt (a b : Str) (i j : Nat) : Bool :=
  match a.get? i, b.get? j with
  | some x, some y => x = y
  | _, _ => false

/-- Length of the longest common block of `a` and `b` ending at positions
`(i, j)` and staying inside the windows `[alo, ...)` and `[blo, ...)`.
This is the value difflib's `j2len` dynamic program assigns to `(i, j)`. -/
def cslW (a b : Str) (alo blo : Nat) : Nat → Nat → Nat
  | 0, j => if alo = 0 && blo ≤ j && matchAt a b 0 j then 1 else 0
  | i + 1, 0 => if alo ≤ i + 1 && blo = 0 && matchAt a b (i + 1) 0 then 1 else 0
  | i + 1, j + 1 =>
    if alo ≤ i + 1 && blo ≤ j + 1 && matchAt a b (i + 1) (j + 1) then
      1 + cslW a b alo blo i j
    else 0

/-- One scan of difflib's `find_longest_match` dynamic program: fold over
end positions `i` (ascending) and `j` (ascending), replacing the best block
only on a strictly larger size, starting from `(alo, blo, 0)`. -/
def flmScan (a b : Str) (alo blo : Nat) (iR jR : List Nat) : Nat × Nat × Nat :=
  iR.foldl
    (fun best i =>
      jR.foldl
        (fun best j =>
          let k := cslW a b alo blo i j
          if best.2.2 < k then (i + 1 - k, j + 1 - k, k) else best)
        best)
    (alo, blo, 0)

/-- difflib `find_longest_match` on the windows `[alo, ahi)` × `[blo, bhi)`
(no junk: the junk/popular extension loops are provably no-ops). -/
def findLongestMatch (a b : Str) (alo ahi blo bhi : Nat) : Nat × Nat × Nat :=
  flmScan a b alo blo (List.range' alo (ahi - alo)) (List.range' blo (bhi - blo))

/-- Total size of difflib's matching blocks on the given windows (fuel-based
recursion; each recursive call strictly shrinks the window, so any fuel of at
least `ahi + bhi` suffices). -/
def matchedTotal (a b : Str) : Nat → Nat → Nat → Nat → Nat → Nat
  | 0, _, _, _, _ => 0
  | fuel + 1, alo, ahi, blo, bhi =>
    let r := findLongestMatch a b alo ahi blo bhi
    if r.2.2 = 0 then 0
    else
      matchedTotal a b fuel alo r.1 blo r.2.1 + r.2.2 +
        matchedTotal a b fuel (r.1 + r.2.2) ahi (r.2.1 + r.2.2) bhi

/-- `SequenceMatcher(None, a, b).ratio()`: `2*M / (len(a)+len(b))`, and
`1.0` when both sequences are empty (difflib `_calculate_ratio`). -/
def matcherScore (a b : Str) : ℚ :=
  if a.length + b.length = 0 then 1
  else
    (2 * matchedTotal a b (a.length + b.length + 1) 0 a.length 0 b.length : ℚ) /
      ((a.length : ℚ) + (b.length : ℚ))

/-!
## Data model (`ai_reviewer.models`)
-/

/-- `models.findings.Severity`; the order of constructors is the Python
enum's definition order, which `list(Severity).index` exposes. -/
inductive Severity where
  | critical
  | warning
  | suggestion
  | nitpick
deriving DecidableEq, Repr

/-- Position of a severity in `list(Severity)` (Python enum definition
order: critical first). -/
def severityEnumIndex : Severity → Nat
  | .critical => 0
  | .warning => 1
  | .suggestion => 2
  | .nitpick => 3

/-- `models.findings.Category`. -/
inductive Category where
  | security
  | performance
  | logic
  | style
  | architecture
  | testing
  | documentation
deriving DecidableEq, Repr

/-- `models.findings.ReviewFinding` (the `__post_init__` validation is not
modelled; no claim depends on construction-time validation). -/
structure ReviewFinding where
  file_path : Str
  line_start : Int
  line_end : Option Int
  severity : Severity
  category : Category
  title : Str
  description : Str
  suggested_fix : Option Str
  confidence : ℚ
deriving DecidableEq, Repr

/-- `models.findings.ConsolidatedFinding`. -/
structure ConsolidatedFinding where
  id : Str
  file_path : Str
  line_start : Int
  line_end : Option Int
  severity : Severity
  category : Category
  title : Str
  description : Str
  suggested_fix : Option Str
  consensus_score : ℚ
  agreeing_agents : List Str
  confidence : ℚ
  original_findings : List ReviewFinding := []
deriving DecidableEq, Repr

/-- Severity weights of `ConsolidatedFinding.priority_score`. -/
def severityWeight : Severity → ℚ
  | .critical => 1
  | .warning => 3 / 5
  | .suggestion => 3 / 10
  | .nitpick => 1 / 10

/-- `ConsolidatedFinding.priority_score`. -/
def priority_score (f : ConsolidatedFinding) : ℚ :=
  severityWeight f.severity * f.consensus_score * f.confidence

/-- `models.review.AgentReview`. -/
structure AgentReview where
  agent_id : Str
  agent_type : Str
  focus_areas : List Str
  findings : List ReviewFinding
  summary : Str
  review_time_ms : Int
deriving DecidableEq, Repr

/-- `models.review.ConsolidatedReview` (`created_at` is an opaque
timestamp, modelled as an integer). -/
structure ConsolidatedReview where
  id : Str
  created_at : Int
  repo : Str
  pr_number : Int
  findings : List ConsolidatedFinding
  summary : Str
  agent_count : Nat
  review_quality_score : ℚ
  total_review_time_ms : Int
  agent_reviews : List AgentReview := []
  failed_agents : List Str := []
deriving DecidableEq, Repr

/-- `github.client.PreviousComment`. -/
structure PreviousComment where
  id : Int
  file_path : Str
  line : Int
  title : Str
  severity : Str
  body : Str
  is_resolved : Bool := false
deriving DecidableEq, Repr

/-- `github.client.ReviewDelta`. -/
structure ReviewDelta where
  new_findings : List ConsolidatedFinding := []
  open_findings : List ConsolidatedFinding := []
  fixed_findings : List PreviousComment := []
  previous_comments : List PreviousComment := []
deriving DecidableEq, Repr

/-- A changed file of the pull request, as `pr.get_files()` yields it:
a filename plus the unified-diff patch text, which is absent (`None`) for
binary or very large files. -/
structure PRFile where
  filename : Str
  patch : Option Str
deriving DecidableEq, Repr

/-!
## `orchestrator.aggregator.ReviewAggregator._merge_cluster` and
`_compute_quality_score`
-/

/-- `_merge_cluster`: merge a cluster of agent-tagged findings into one
`ConsolidatedFinding`.  Python's `max` on an empty cluster would raise, so
the empty cluster maps to `none`.  Two deliberate modelling choices, on
parts no claim inspects: the `id` field stands for the string that the
source feeds to `hashlib.md5` (the digest itself is not modelled), and
`unique_descriptions` — a Python `set` with unspecified iteration order —
is modelled in first-seen order. -/
def merge_cluster (cluster : List (Str × ReviewFinding)) (total_agents : Nat) :
    Option ConsolidatedFinding :=
  match cluster with
  | [] => none
  | c0 :: rest =>
    let agents := (c0 :: rest).map (fun t => t.1)
    let findings := (c0 :: rest).map (fun t => t.2)
    let base_finding := pyMaxBy (fun f => f.confidence) c0.2 (rest.map (fun t => t.2))
    let unique_descriptions := dedupFirst (findings.map (fun f => f.description))
    let description :=
      if 1 < unique_descriptions.length then
        base_finding.description ++ ("\n\n**Also noted:**\n").data ++
          intercalateNl
            ((unique_descriptions.filter (fun d => d ≠ base_finding.description)).map
              (fun d => '-' :: ' ' :: d))
      else base_finding.description
    let suggested_fix := base_finding.suggested_fix
    let other_fixes :=
      findings.filterMap (fun f =>
        match f.suggested_fix with
        | some fx => if fx ≠ [] ∧ some fx ≠ suggested_fix then some fx else none
        | none => none)
    let suggested_fix :=
      if other_fixes ≠ [] then
        some ((suggested_fix.getD []) ++ ("\n\n**Alternative suggestions:**\n").data ++
          intercalateNl ((other_fixes.take 2).map (fun fx => '-' :: ' ' :: fx)))
      else suggested_fix
    let severity :=
      (pyMaxBy (fun f => severityEnumIndex f.severity) c0.2 (rest.map (fun t => t.2))).severity
    let consensus : ℚ := ((c0 :: rest).length : ℚ) / (total_agents : ℚ)
    let avg_confidence : ℚ := (findings.map (fun f => f.confidence)).sum / (findings.length : ℚ)
    some
      { id := ("finding-").data ++ base_finding.file_path ++ ':' ::
          (renderInt base_finding.line_start ++ ':' :: base_finding.title)
        file_path := base_finding.file_path
        line_start := base_finding.line_start
        line_end := base_finding.line_end
        severity := severity
        category := base_finding.category
        title := base_finding.title
        description := description
        suggested_fix := suggested_fix
        consensus_score := consensus
        agreeing_agents := agents
        confidence := avg_confidence
        original_findings := findings }

/-- `_compute_quality_score`. -/
def compute_quality_score (reviews : List AgentReview)
    (findings : List ConsolidatedFinding) : ℚ :=
  if reviews = [] then 0
  else if findings = [] then min (19 / 20 : ℚ) (7 / 10 + (reviews.length : ℚ) * (1 / 10))
  else
    let avg_consensus : ℚ :=
      (findings.map (fun f => f.consensus_score)).sum / (findings.length : ℚ)
    let agent_factor : ℚ := min 1 ((reviews.length : ℚ) / 3)
    round2 (avg_consensus * agent_factor)

/-!
## `review.py`: raw-finding similarity, clustering, `aggregate_findings`
-/

/-- A raw finding as parsed from an agent's JSON output: a dict with all
fields possibly absent. -/
structure RawFinding where
  file_path : Option Str := none
  line_start : Option Int := none
  line_end : Option Int := none
  severity : Option Str := none
  category : Option Str := none
  title : Option Str := none
  description : Option Str := none
  suggested_fix : Option Str := none
  confidence : Option ℚ := none
deriving DecidableEq, Repr

/-- Python `x or default` on an optional string (`None` and `""` both fall
through to the default). -/
def pyOrStr (o : Option Str) (d : Str) : Str :=
  match o with
  | some s => if s = [] then d else s
  | none => d

/-- `_normalize_path`: strip whitespace, backslashes to forward slashes,
then `lstrip("./")` — which removes ALL leading `.` and `/` characters
(Python `lstrip` takes a character set, not a prefix). -/
def normalize_path (path : Str) : Str :=
  if path = [] then []
  else ((pyStrip path).map (fun c => if c = '\\' then '/' else c)).dropWhile
    (fun c => c = '.' || c = '/')

/-- `_raw_lines_overlap` (line ranges close within `tolerance`; a falsy
`line_end` — absent or 0 — defaults to the start). -/
def raw_lines_overlap (raw1 raw2 : RawFinding) (tolerance : Int := 5) : Bool :=
  let start1 := raw1.line_start.getD 1
  let end1 := match raw1.line_end with
    | some e => if e ≠ 0 then e else start1
    | none => start1
  let start2 := raw2.line_start.getD 1
  let end2 := match raw2.line_end with
    | some e => if e ≠ 0 then e else start2
    | none => start2
  !(decide (end1 + tolerance < start2) || decide (end2 + tolerance < start1))

/-- `_raw_text_similarity`. -/
def raw_text_similarity (text1 text2 : Str) : ℚ :=
  if text1 = [] ∧ text2 = [] then 1
  else if text1 = [] ∨ text2 = [] then 0
  else matcherScore (pyLower text1) (pyLower text2)

/-- `_SIMILARITY_THRESHOLD` (0.85). -/
def SIMILARITY_THRESHOLD : ℚ := 17 / 20

/-- `_raw_findings_similar`. -/
def raw_findings_similar (raw1 raw2 : RawFinding)
    (threshold : ℚ := SIMILARITY_THRESHOLD) : Bool :=
  let path1 := normalize_path (raw1.file_path.getD [])
  let path2 := normalize_path (raw2.file_path.getD [])
  if path1 ≠ path2 then false
  else
    let cat1 := pyStrip (pyLower (pyOrStr raw1.category ("logic").data))
    let cat2 := pyStrip (pyLower (pyOrStr raw2.category ("logic").data))
    if cat1 ≠ cat2 then false
    else if !raw_lines_overlap raw1 raw2 then false
    else
      let title1 := pyStrip (pyOrStr raw1.title [])
      let title2 := pyStrip (pyOrStr raw2.title [])
      let desc1 := pyStrip (pyOrStr raw1.description [])
      let desc2 := pyStrip (pyOrStr raw2.description [])
      let title_sim := raw_text_similarity title1 title2
      let desc_sim := raw_text_similarity desc1 desc2
      decide (threshold ≤ title_sim * (3 / 5) + desc_sim * (2 / 5))

/-- Greedy seed clustering (the body of `_cluster_raw_findings`): the first
unused element seeds a cluster and absorbs every later element similar to
the seed.  Fuel-based structural recursion; fuel = list length always
suffices since each step consumes the head. -/
def clusterAux (simFun : α → α → Bool) : Nat → List α → List (List α)
  | 0, _ => []
  | _, [] => []
  | fuel + 1, x :: rest =>
    (x :: rest.filter (simFun x)) :: clusterAux simFun fuel (rest.filter (fun y => !simFun x y))

/-- `_cluster_raw_findings`. -/
def cluster_raw_findings (tagged : List (Str × RawFinding))
    (threshold : ℚ := SIMILARITY_THRESHOLD) : List (List (Str × RawFinding)) :=
  clusterAux (fun a b => raw_findings_similar a.2 b.2 threshold) tagged.length tagged

/-- `Severity(value)` lookup by enum value; `none` models the `ValueError`. -/
def parseSeverity (s : Str) : Option Severity :=
  if s = ("critical").data then some .critical
  else if s = ("warning").data then some .warning
  else if s = ("suggestion").data then some .suggestion
  else if s = ("nitpick").data then some .nitpick
  else none

/-- `Category(value)` lookup by enum value. -/
def parseCategory (s : Str) : Option Category :=
  if s = ("security").data then some .security
  else if s = ("performance").data then some .performance
  else if s = ("logic").data then some .logic
  else if s = ("style").data then some .style
  else if s = ("architecture").data then some .architecture
  else if s = ("testing").data then some .testing
  else if s = ("documentation").data then some .documentation
  else none

/-- The per-cluster body of the loop in `aggregate_findings`: build one
`ConsolidatedFinding` from the cluster with index `idx` (its id is
`finding-(idx+1)`, matching `len(consolidated) + 1`). -/
def consolidateCluster (idx : Nat) (total_agents : Nat)
    (cluster : List (Str × RawFinding)) : Option ConsolidatedFinding :=
  match cluster with
  | [] => none
  | (_, raw) :: _ =>
    let agreeing_agents := dedupFirst (cluster.map (fun t => t.1))
    let severity := (parseSeverity (pyLower (raw.severity.getD ("suggestion").data))).getD .suggestion
    let category := (parseCategory (pyLower (raw.category.getD ("logic").data))).getD .logic
    let consensus_score : ℚ :=
      if 0 < total_agents then (agreeing_agents.length : ℚ) / (total_agents : ℚ) else 1
    some
      { id := ("finding-").data ++ renderNat (idx + 1)
        file_path := raw.file_path.getD ("unknown").data
        line_start := raw.line_start.getD 1
        line_end := raw.line_end
        severity := severity
        category := category
        title := raw.title.getD ("Issue found").data
        description := raw.description.getD []
        suggested_fix := raw.suggested_fix
        consensus_score := consensus_score
        agreeing_agents := agreeing_agents
        confidence := raw.confidence.getD (4 / 5) }

/-- The consolidated findings of `aggregate_findings` before sorting. -/
def aggregateConsolidatedUnsorted (alls : List (Str × List RawFinding × Str)) :
    List ConsolidatedFinding :=
  let tagged := alls.flatMap (fun t => t.2.1.map (fun r => (t.1, r)))
  (cluster_raw_findings tagged).enum.filterMap
    (fun p => consolidateCluster p.1 alls.length p.2)

/-- The consolidated findings of `aggregate_findings` after the stable sort
by `priority_score` descending. -/
def aggregateSorted (alls : List (Str × List RawFinding × Str)) :
    List ConsolidatedFinding :=
  pySort (fun f g => decide (priority_score g ≤ priority_score f))
    (aggregateConsolidatedUnsorted alls)

/-- `aggregate_findings` (`review.py`).  The uuid-suffixed review id and the
`datetime.now()` timestamp are opaque to every claim and modelled by fixed
values. -/
def aggregate_findings (alls : List (Str × List RawFinding × Str))
    (repo : Str) (pr_number : Int) : ConsolidatedReview :=
  let summaries := alls.map (fun t => ("**").data ++ t.1 ++ ("**: ").data ++ t.2.2)
  let failed_agents :=
    alls.filterMap (fun t =>
      if strContains (("Agent failed:").data) t.2.2 ||
          strContains (("401 Unauthorized").data) t.2.2 then some t.1 else none)
  let consolidated := aggregateSorted alls
  let combined_summary :=
    if summaries ≠ [] then intercalateNl summaries else ("Review completed").data
  let total_agents := alls.length
  let quality_score : ℚ :=
    if consolidated = [] then min (19 / 20 : ℚ) (7 / 10 + (total_agents : ℚ) * (1 / 10))
    else
      round2
        (((consolidated.map (fun f => f.consensus_score)).sum / (consolidated.length : ℚ)) *
          min 1 ((total_agents : ℚ) / 3))
  { id := ("review-uuid").data
    created_at := 0
    repo := repo
    pr_number := pr_number
    findings := consolidated
    summary := combined_summary
    agent_count := alls.length
    review_quality_score := quality_score
    total_review_time_ms := 0
    failed_agents := failed_agents }

/-!
## `review.py`: `apply_cross_review`
-/

/-- A JSON-ish value as an agent may emit it for the `valid` / `rank`
fields of a cross-review assessment. -/
inductive PyVal where
  | pybool (b : Bool)
  | pystr (s : Str)
  | pynum (q : ℚ)
  | pynull
deriving DecidableEq, Repr

/-- Python truthiness of such a value (`if v:`). -/
def pyTruthy : PyVal → Bool
  | .pybool b => b
  | .pystr s => s ≠ []
  | .pynum q => q ≠ 0
  | .pynull => false

/-- One assessment dict `{id, finding_id, valid, rank}`; every key may be
absent. -/
structure Assessment where
  id : Option Str := none
  finding_id : Option Str := none
  valid : Option PyVal := none
  rank : Option PyVal := none
deriving DecidableEq, Repr

/-- Fallback of `a.get("id") or a.get("finding_id")` combined with the
subsequent `if not fid: continue` check: the effective finding id of an
assessment, `none` when both candidates are absent or empty. -/
def assessmentFid (a : Assessment) : Option Str :=
  let fb : Option Str :=
    match a.finding_id with
    | some t => if t ≠ [] then some t else none
    | none => none
  match a.id with
  | some s => if s ≠ [] then some s else fb
  | none => fb

/-- `a.get("valid", True)`. -/
def assessValid (a : Assessment) : PyVal := a.valid.getD (.pybool true)

/-- `rank = a.get("rank", 99)`, then `max(1, int(rank))` when the value is
an int/float (Python `bool` is an `int` instance, and `max(1, int(b)) = 1`),
else `99`. -/
def assessRank (a : Assessment) : Int :=
  match a.rank with
  | some (.pynum q) => max 1 (truncInt q)
  | some (.pybool _) => 1
  | some _ => 99
  | none => 99

/-- The votes `id_to_votes[fid]` collected for one finding id, in the order
the source appends them (outer loop over agents, inner over assessments).
The source also skips votes whose id names no finding; this function is
only consulted at ids of findings of the review, where that check passes. -/
def crossVotes (all_assessments : List (Str × List Assessment)) (fid : Str) :
    List (PyVal × Int) :=
  all_assessments.flatMap (fun t =>
    t.2.filterMap (fun a =>
      match assessmentFid a with
      | some g => if g = fid then some (assessValid a, assessRank a) else none
      | none => none))

/-- `valid_count`: votes whose raw `valid` value is truthy (note: the raw
value, with no boolean coercion). -/
def validCount (votes : List (PyVal × Int)) : Nat :=
  (votes.filter (fun v => pyTruthy v.1)).length

/-- `valid_ratio = valid_count / n_agents if n_agents else 1.0` where
`n_agents = len(all_assessments)`. -/
def validFrac (n_agents : Nat) (votes : List (PyVal × Int)) : ℚ :=
  if n_agents ≠ 0 then (validCount votes : ℚ) / (n_agents : ℚ) else 1

/-- `avg_rank = sum(ranks) / len(votes) if votes else 99.0`. -/
def avgRank (votes : List (PyVal × Int)) : ℚ :=
  if votes ≠ [] then ((votes.map (fun v => v.2)).sum : ℚ) / (votes.length : ℚ) else 99

/-- `id_to_finding[fid]` where the dict comprehension keeps the LAST
finding carrying a duplicated id. -/
def idToFindingLast (review : ConsolidatedReview) (fid : Str) :
    Option ConsolidatedFinding :=
  (review.findings.filter (fun f => f.id = fid)).getLast?

/-- The keep/drop decision of the loop body of `apply_cross_review`:
`none` = dropped; `some (valid_ratio, avg_rank)` = kept. -/
def crossKeepStep (n_agents : Nat) (t : ℚ) (votes : List (PyVal × Int)) :
    Option (ℚ × ℚ) :=
  if votes = [] then some (1, 99)
  else
    let vr := validFrac n_agents votes
    if vr < t then none else some (vr, avgRank votes)

/-- The `kept` list of `apply_cross_review` before sorting. -/
def crossKept (review : ConsolidatedReview)
    (all_assessments : List (Str × List Assessment)) (t : ℚ) :
    List (ConsolidatedFinding × ℚ × ℚ) :=
  (review.findings.map (fun f => f.id)).filterMap (fun fid =>
    match idToFindingLast review fid with
    | some f =>
      (crossKeepStep all_assessments.length t (crossVotes all_assessments fid)).map
        (fun p => (f, p))
    | none => none)

/-- The `severity_order` dict of `apply_cross_review` (its `.get(_, 4)`
default is unreachable: the enum is total). -/
def severityOrderKey : Severity → Nat
  | .critical => 0
  | .warning => 1
  | .suggestion => 2
  | .nitpick => 3

/-- The `kept` list after the stable sort by `(avg_rank, severity)`. -/
def crossSortedKept (review : ConsolidatedReview)
    (all_assessments : List (Str × List Assessment)) (t : ℚ) :
    List (ConsolidatedFinding × ℚ × ℚ) :=
  pySort
    (fun x y =>
      decide (x.2.2 < y.2.2) ||
        (decide (x.2.2 = y.2.2) &&
          decide (severityOrderKey x.1.severity ≤ severityOrderKey y.1.severity)))
    (crossKept review all_assessments t)

/-- `apply_cross_review` (`review.py`). -/
def apply_cross_review (review : ConsolidatedReview)
    (all_assessments : List (Str × List Assessment))
    (min_validation_agreement : ℚ := 1 / 2) : ConsolidatedReview :=
  if all_assessments = [] then review
  else
    let kept := crossSortedKept review all_assessments min_validation_agreement
    let new_findings := kept.map (fun x => x.1)
    let n_dropped := review.findings.length - new_findings.length
    let original_ids := review.findings.map (fun f => f.id)
    let new_ids := new_findings.map (fun f => f.id)
    let order_changed := original_ids ≠ new_ids
    let summary :=
      if 0 < n_dropped ∨ order_changed then
        review.summary ++ ("\n\nCross-review: ").data ++
          List.intercalate (("; ").data)
            ((if 0 < n_dropped then
                [renderNat n_dropped ++ (" finding(s) dropped by cross-review").data]
              else []) ++
              (if order_changed then [("re-ranked by agent consensus").data] else [])) ++
          ['.']
      else review.summary
    { id := review.id
      created_at := review.created_at
      repo := review.repo
      pr_number := review.pr_number
      findings := new_findings
      summary := summary
      agent_count := review.agent_count
      review_quality_score := review.review_quality_score
      total_review_time_ms := review.total_review_time_ms
      failed_agents := review.failed_agents }

/-!
## `github.client`: diff parsing and review delta
-/

/-- `_normalize_title`: lowercase + strip. -/
def normalize_title (title : Str) : Str := pyStrip (pyLower title)

/-- Is this character an ASCII decimal digit? -/
def isDigitChr (c : Char) : Bool := '0' ≤ c && c ≤ '9'

/-- Value of the maximal leading run of digits (Python `int` on the capture
of `(\d+)`); callers only use it when the run is nonempty. -/
def readDigitRun (s : Str) : Nat :=
  (s.takeWhile isDigitChr).foldl (fun acc c => 10 * acc + digitVal c) 0

/-- `re.search(r"\+(\d+)", line)`: the value captured at the leftmost `+`
that is immediately followed by at least one digit, if any. -/
def findPlusDigits : Str → Option Nat
  | [] => none
  | c :: rest =>
    if c = '+' then
      match rest with
      | d :: _ => if isDigitChr d then some (readDigitRun rest) else findPlusDigits rest
      | [] => none
    else findPlusDigits rest

/-- The per-line loop of `_parse_modified_lines`, over the already-split
lines, carrying the running new-file line counter.  The Python `set` of
modified lines is modelled as the list of marks in encounter order (all
uses are order- and multiplicity-insensitive). -/
def parseMLLines : List Str → Nat → List Nat
  | [], _ => []
  | l :: rest, cur =>
    if strStarts (('@' : Char) :: ['@']) l then
      match findPlusDigits l with
      | some n => parseMLLines rest n
      | none => parseMLLines rest cur
    else if strStarts ['+'] l ∧ ¬strStarts ('+' :: '+' :: ['+']) l then
      cur :: parseMLLines rest (cur + 1)
    else if strStarts ['-'] l ∧ ¬strStarts ('-' :: '-' :: ['-']) l then
      cur :: parseMLLines rest cur
    else if strStarts ['\\'] l then parseMLLines rest cur
    else parseMLLines rest (cur + 1)

/-- `_parse_modified_lines`: split the patch on newlines and scan. -/
def parse_modified_lines (patch : Str) : List Nat :=
  if patch = [] then []
  else parseMLLines (splitNl patch) 0

/-- `_is_line_in_modified_range` (default tolerance 3). -/
def is_line_in_modified_range (line : Int) (modified_lines : List Nat)
    (tolerance : Int := 3) : Bool :=
  modified_lines.any (fun m => (line - (m : Int)).natAbs ≤ tolerance.toNat)

/-- The `(file, line, normalized_title)` key of a previous comment. -/
def commentKey (c : PreviousComment) : Str × Int × Str :=
  (c.file_path, c.line, normalize_title c.title)

/-- The `(file, line, normalized_title)` key of a current finding. -/
def findingKey (f : ConsolidatedFinding) : Str × Int × Str :=
  (f.file_path, f.line_start, normalize_title f.title)

/-- `previous_lookup[key]`, where the dict is built in list order so the
LAST comment with a duplicated key wins. -/
def previousLookup (previous : List PreviousComment) (k : Str × Int × Str) :
    Option PreviousComment :=
  (previous.filter (fun c => commentKey c = k)).getLast?

/-- `file_modified_lines.get(path)`: built only from files whose `patch` is
truthy (present and nonempty), keyed by filename with the last such file
winning. -/
def fileModifiedLines (prFiles : List PRFile) (path : Str) : Option (List Nat) :=
  ((prFiles.filter (fun f => match f.patch with
      | some p => p ≠ []
      | none => false)).filter (fun f => f.filename = path)).getLast?.map
    (fun f => parse_modified_lines (f.patch.getD []))

/-- `compute_review_delta`.  The source fetches the previous comments and
the PR's changed files itself; both pieces of external state are passed
here as explicit inputs. -/
def compute_review_delta (previous : List PreviousComment)
    (current_findings : List ConsolidatedFinding)
    (prFiles : List PRFile) : ReviewDelta :=
  let open_findings :=
    current_findings.filter (fun f => (previousLookup previous (findingKey f)).isSome)
  let new_findings :=
    current_findings.filter (fun f => !(previousLookup previous (findingKey f)).isSome)
  let matched_previous : List Int :=
    current_findings.filterMap (fun f =>
      (previousLookup previous (findingKey f)).map (fun c => c.id))
  let changed_files := prFiles.map (fun f => f.filename)
  let fixed_findings :=
    previous.filter (fun c =>
      !(matched_previous.contains c.id) &&
        (!(changed_files.contains c.file_path) ||
          (match fileModifiedLines prFiles c.file_path with
           | some ml => is_line_in_modified_range c.line ml
           | none => false)))
  { new_findings := new_findings
    open_findings := open_findings
    fixed_findings := fixed_findings
    previous_comments := previous }

/-!
## `orchestrator.orchestrator.AgentOrchestrator.review`

The async machinery is modelled at the point where `asyncio.gather(...,
return_exceptions=True)` has settled: each agent has one outcome — a
successful `AgentReview`, a timeout, a raised exception (carrying the
exception type name), or an unexpected non-review value.
-/

/-- The settled outcome of one agent task. -/
inductive AgentOutcome where
  | success (r : AgentReview)
  | timeout
  | failure (excName : Str)
  | other
deriving DecidableEq, Repr

/-- The data carried by `InsufficientAgentsError`'s formatted message:
how many agents succeeded, the configured minimum, and the per-agent
failure strings `"<id> (<reason>)"`. -/
structure InsufficientAgentsInfo where
  succeeded : Nat
  minRequired : Nat
  failed : List Str
deriving DecidableEq, Repr

/-- The result-processing loop of `AgentOrchestrator.review`: walk the
zipped `(agent, result)` pairs accumulating successful reviews and failure
strings, in order. -/
def reviewCollect : List (Str × AgentOutcome) → List AgentReview × List Str
  | [] => ([], [])
  | (a, r) :: rest =>
    let acc := reviewCollect rest
    match r with
    | .success rv => (rv :: acc.1, acc.2)
    | .timeout => (acc.1, (a ++ (" (timeout)").data) :: acc.2)
    | .failure n => (acc.1, (a ++ ' ' :: '(' :: (n ++ [')'])) :: acc.2)
    | .other => (acc.1, (a ++ (" (unknown)").data) :: acc.2)

/-- `AgentOrchestrator.review` after all tasks settle: raise the typed
insufficient-agents signal when too few succeeded, else return the
successful reviews (and only them). -/
def orchestrator_review (agents : List Str) (results : List AgentOutcome)
    (min_agents_required : Nat) :
    Except InsufficientAgentsInfo (List AgentReview) :=
  let acc := reviewCollect (agents.zip results)
  if acc.1.length < min_agents_required then
    .error ⟨acc.1.length, min_agents_required, acc.2⟩
  else .ok acc.1

/-- The successful reviews of a settled batch, in order. -/
def successesOf (agents : List Str) (results : List AgentOutcome) : List AgentReview :=
  (agents.zip results).filterMap (fun t =>
    match t.2 with
    | .success rv => some rv
    | _ => none)

/-- The failure strings of a settled batch, in order. -/
def failuresOf (agents : List Str) (results : List AgentOutcome) : List Str :=
  (agents.zip results).filterMap (fun t =>
    match t.2 with
    | .success _ => none
    | .timeout => some (t.1 ++ (" (timeout)").data)
    | .failure n => some (t.1 ++ ' ' :: '(' :: (n ++ [')']))
    | .other => some (t.1 ++ (" (unknown)").data))

/-!
## Structured unified-diff patches (spec side, for C7)

To state C7 — a characterization of `_parse_modified_lines` on unified-diff
patch strings — we model a patch structurally as a list of hunks, render it
to the character string GitHub-style patches consist of, and compare the
string-level parser against a direct structural semantics.  `claimHunkSteps`
follows the claim's words exactly; `amendHunkSteps` is the amended
semantics, with the `+++`/`---` provisos the counterexample forces.
-/

/-- One body line of a unified-diff hunk. -/
inductive HunkLine where
  | add (s : Str)
  | del (s : Str)
  | ctx (s : Str)
  | nonl
deriving DecidableEq, Repr

/-- One hunk: the header numbers and the body lines. -/
structure Hunk where
  oldStart : Nat
  oldCount : Nat
  newStart : Nat
  newCount : Nat
  lines : List HunkLine
deriving DecidableEq, Repr

/-- Render one body line as it appears in a patch. -/
def renderHunkLine : HunkLine → Str
  | .add s => '+' :: s
  | .del s => '-' :: s
  | .ctx s => ' ' :: s
  | .nonl => ("\\ No newline at end of file").data

/-- Render a hunk header `@@ -a,b +c,d @@`. -/
def renderHeader (h : Hunk) : Str :=
  ("@@ -").data ++ renderNat h.oldStart ++ ',' ::
    (renderNat h.oldCount ++ ' ' :: '+' ::
      (renderNat h.newStart ++ ',' :: (renderNat h.newCount ++ (" @@").data)))

/-- All lines of a rendered patch, in order. -/
def renderPatchLines (hs : List Hunk) : List Str :=
  hs.flatMap (fun h => renderHeader h :: h.lines.map renderHunkLine)

/-- The rendered patch string. -/
def renderPatch (hs : List Hunk) : Str := intercalateNl (renderPatchLines hs)

/-- The marks of one hunk according to the claim's words: added lines mark
the counter and increment it, removed lines mark without incrementing,
context lines increment without marking, `\`-lines are ignored. -/
def claimHunkSteps (cur : Nat) : List HunkLine → List Nat
  | [] => []
  | .add _ :: ls => cur :: claimHunkSteps (cur + 1) ls
  | .del _ :: ls => cur :: claimHunkSteps cur ls
  | .ctx _ :: ls => claimHunkSteps (cur + 1) ls
  | .nonl :: ls => claimHunkSteps cur ls

/-- The modified-line set of a structured patch according to the claim:
the counter resets to each hunk's stated new-file start. -/
def claimMarks (hs : List Hunk) : List Nat :=
  hs.flatMap (fun h => claimHunkSteps h.newStart h.lines)

/-- The amended per-hunk semantics: as the claim says, EXCEPT that an added
line whose content itself starts with `++` (rendered `+++...`) and a removed
line whose content starts with `--` (rendered `---...`) are treated by the
parser as context lines — incremented past, never marked. -/
def amendHunkSteps (cur : Nat) : List HunkLine → List Nat
  | [] => []
  | .add s :: ls =>
    if strStarts ('+' :: ['+']) s then amendHunkSteps (cur + 1) ls
    else cur :: amendHunkSteps (cur + 1) ls
  | .del s :: ls =>
    if strStarts ('-' :: ['-']) s then amendHunkSteps (cur + 1) ls
    else cur :: amendHunkSteps cur ls
  | .ctx _ :: ls => amendHunkSteps (cur + 1) ls
  | .nonl :: ls => amendHunkSteps cur ls

/-- The counter value after scanning a hunk body under the amended
semantics. -/
def amendEndCur (cur : Nat) : List HunkLine → Nat
  | [] => cur
  | .add _ :: ls => amendEndCur (cur + 1) ls
  | .del s :: ls =>
    if strStarts ('-' :: ['-']) s then amendEndCur (cur + 1) ls
    else amendEndCur cur ls
  | .ctx _ :: ls => amendEndCur (cur + 1) ls
  | .nonl :: ls => amendEndCur cur ls

/-- The amended modified-line semantics of a structured patch. -/
def amendMarks (hs : List Hunk) : List Nat :=
  hs.flatMap (fun h => amendHunkSteps h.newStart h.lines)

/-- Is a string free of newline characters? -/
def strNlFree (s : Str) : Bool := s.all (fun c => c ≠ '\n')

/-- Newline-freedom of a hunk body line's content. -/
def hunkLineNlFree : HunkLine → Bool
  | .add s => strNlFree s
  | .del s => strNlFree s
  | .ctx s => strNlFree s
  | .nonl => true

/-- A structured patch is renderable iff no body content contains a newline
(heads, being numbers and fixed punctuation, never do). -/
def patchNlFree (hs : List Hunk) : Bool :=
  hs.all (fun h => h.lines.all hunkLineNlFree)

/-- The big-endian digit-run value used by `readDigitRun`, as a standalone
function. -/
def valBE (s : Str) : Nat := s.foldl (fun acc c => 10 * acc + digitVal c) 0

/-!
## Spec-side similarity (for C5)

`specRawFindingsSimilar` follows the words of claim C5: paths compared
after trimming, backslash conversion, and removal of a leading `./` PREFIX
(not Python's `lstrip` character-set semantics); categories compared
case-insensitively (no trimming); similarity computed on the raw title and
description (no trimming).
-/

/-- Remove leading occurrences of the two-character prefix `./`. -/
def stripDotSlash : Str → Str
  | '.' :: '/' :: rest => stripDotSlash rest
  | s => s

/-- Path normalization as claim C5 words it. -/
def specNormalizePath (path : Str) : Str :=
  stripDotSlash ((pyStrip path).map (fun c => if c = '\\' then '/' else c))

/-- Similarity as claim C5 words it. -/
def specRawFindingsSimilar (raw1 raw2 : RawFinding) (threshold : ℚ) : Bool :=
  let path1 := specNormalizePath (raw1.file_path.getD [])
  let path2 := specNormalizePath (raw2.file_path.getD [])
  let cat1 := pyLower (pyOrStr raw1.category ("logic").data)
  let cat2 := pyLower (pyOrStr raw2.category ("logic").data)
  let title_sim := raw_text_similarity (pyOrStr raw1.title []) (pyOrStr raw2.title [])
  let desc_sim := raw_text_similarity (pyOrStr raw1.description []) (pyOrStr raw2.description [])
  path1 = path2 && (cat1 = cat2 && (raw_lines_overlap raw1 raw2 &&
    decide (threshold ≤ title_sim * (3 / 5) + desc_sim * (2 / 5))))

/-!
## Concrete example values used by the claim theorems and witnesses
-/

/-- A critical security finding, as in the repository's aggregator tests. -/
def rfCrit : ReviewFinding :=
  { file_path := ("auth/login.py").data
    line_start := 15
    line_end := some 16
    severity := .critical
    category := .security
    title := ("SQL Injection").data
    description := ("User input in query").data
    suggested_fix := none
    confidence := 9 / 10 }

/-- A near-duplicate of `rfCrit` with lower confidence. -/
def rfCrit2 : ReviewFinding :=
  { rfCrit with
    title := ("SQL Injection variant").data
    confidence := 8 / 10 }

/-- The same finding rated `nitpick` by another agent. -/
def rfNit : ReviewFinding :=
  { rfCrit with
    severity := .nitpick
    confidence := 1 / 2 }

/-- A warning finding with id `f1`, as in the repository's cross-review
tests. -/
def cf1 : ConsolidatedFinding :=
  { id := ("f1").data
    file_path := ("src/foo.py").data
    line_start := 10
    line_end := some 12
    severity := .warning
    category := .logic
    title := ("Test finding").data
    description := ("Description").data
    suggested_fix := none
    consensus_score := 1
    agreeing_agents := [("agent-1").data]
    confidence := 9 / 10 }

/-- A different finding value that reuses the id `f1`. -/
def cf1dup : ConsolidatedFinding :=
  { cf1 with title := ("Other title").data }

/-- A review holding `cf1`, as in the repository's cross-review tests. -/
def crReview : ConsolidatedReview :=
  { id := ("review-1").data
    created_at := 0
    repo := ("test/repo").data
    pr_number := 1
    findings := [cf1]
    summary := ("Summary").data
    agent_count := 3
    review_quality_score := 9 / 10
    total_review_time_ms := 0
    failed_agents := [] }

/-- The same review with two findings sharing the id `f1`. -/
def crReviewDup : ConsolidatedReview :=
  { crReview with findings := [cf1, cf1dup] }

/-- One valid vote on `f1` from agent `a1`; agents `a2` and `a3`
participated in the round but were silent on `f1`. -/
def assessPartial : List (Str × List Assessment) :=
  [((("a1").data),
      [{ id := some (("f1").data), valid := some (.pybool true), rank := some (.pynum 1) }]),
    ((("a2").data), []),
    ((("a3").data), [])]

/-- Both agents vote on `f1` with the literal STRING value `"false"`. -/
def assessStrFalse : List (Str × List Assessment) :=
  [((("a1").data),
      [{ id := some (("f1").data), valid := some (.pystr (("false").data)),
         rank := some (.pynum 1) }]),
    ((("a2").data),
      [{ id := some (("f1").data), valid := some (.pystr (("false").data)),
         rank := some (.pynum 2) }])]

/-- Both agents vote on `f1` with the BOOLEAN value `false`. -/
def assessBoolFalse : List (Str × List Assessment) :=
  [((("a1").data),
      [{ id := some (("f1").data), valid := some (.pybool false),
         rank := some (.pynum 1) }]),
    ((("a2").data),
      [{ id := some (("f1").data), valid := some (.pybool false),
         rank := some (.pynum 2) }])]

/-- One valid vote on `f1` from a single agent. -/
def assessOneValid : List (Str × List Assessment) :=
  [((("a1").data),
      [{ id := some (("f1").data), valid := some (.pybool true), rank := some (.pynum 1) }])]

/-- A previous comment on a binary file, as in the repository's delta test
for files present in the diff without a retrievable patch. -/
def prevBin : PreviousComment :=
  { id := 1
    file_path := ("src/deleted.bin").data
    line := 5
    title := ("Issue in binary file").data
    severity := ("warning").data
    body := ("body").data }

/-- The matching PR file: in the diff, but with no patch. -/
def prFileBin : PRFile := { filename := ("src/deleted.bin").data, patch := none }

/-- A successful agent review value. -/
def agOk : AgentReview :=
  { agent_id := ("security-agent").data
    agent_type := ("cursor").data
    focus_areas := []
    findings := []
    summary := ("ok").data
    review_time_ms := 0 }

/-- Raw finding with path `.env` (and untrimmed category/title). -/
def r5a : RawFinding :=
  { file_path := some ((".env").data)
    line_start := some 5
    category := some ((" logic").data)
    title := some (("T ").data)
    description := some (("D").data) }

/-- Raw finding with path `env`. -/
def r5b : RawFinding :=
  { file_path := some (("env").data)
    line_start := some 5
    category := some (("logic").data)
    title := some (("T").data)
    description := some (("D").data) }

/-- The counterexample patch of C7: removing the line `--x` and adding the
line `y` renders as `---x` / `+y`. -/
def cxHunk : Hunk :=
  { oldStart := 1, oldCount := 1, newStart := 1, newCount := 1
    lines := [.del ('-' :: '-' :: ['x']), .add ['y']] }

/-- A well-behaved witness patch for C7. -/
def wHunk : Hunk :=
  { oldStart := 8, oldCount := 6, newStart := 8, newCount := 7
    lines := [.ctx (("context").data), .del (("old line").data),
      .add (("new line").data), .add (("added line").data), .nonl] }

/-!
## Lemmas and claim theorems
-/

theorem pyInsort_perm (le : α → α → Bool) (x : α) (l : List α) :
    List.Perm (pyInsort le x l) (x :: l) := by
  induction l with
  | nil => simp [pyInsort]
  | cons y ys ih =>
    by_cases h : le y x = true
    · simp only [pyInsort, h, if_pos]
      exact ((ih.cons y).trans (List.Perm.swap x y ys))
    · simp [pyInsort, h]

theorem pySort_perm (le : α → α → Bool) (l : List α) :
    List.Perm (pySort le l) l := by
  induction l with
  | nil => simp [pySort]
  | cons x xs ih =>
    exact (pyInsort_perm le x (pySort le xs)).trans (ih.cons x)

theorem mem_pySort (le : α → α → Bool) (l : List α) (a : α) :
    a ∈ pySort le l ↔ a ∈ l :=
  (pySort_perm le l).mem_iff

theorem reviewCollect_eq (l : List (Str × AgentOutcome)) :
    reviewCollect l =
      (l.filterMap (fun t =>
          match t.2 with
          | .success rv => some rv
          | _ => none),
        l.filterMap (fun t =>
          match t.2 with
          | .success _ => none
          | .timeout => some (t.1 ++ (" (timeout)").data)
          | .failure n => some (t.1 ++ ' ' :: '(' :: (n ++ [')']))
          | .other => some (t.1 ++ (" (unknown)").data))) := by
  induction l with
  | nil => rfl
  | cons x rest ih =>
    obtain ⟨a, r⟩ := x
    cases r <;> simp [reviewCollect, ih, List.filterMap_cons]

theorem natDigitsRev_lt_ten (fuel n : Nat) : ∀ d ∈ natDigitsRev fuel n, d < 10 := by
  induction fuel generalizing n with
  | zero => intro d hd; simp [natDigitsRev] at hd
  | succ f ih =>
    intro d hd
    by_cases h : n = 0
    · simp [natDigitsRev, h] at hd
    · simp only [natDigitsRev, h, if_neg, if_false] at hd
      rcases List.mem_cons.mp hd with h1 | h2
      · subst h1; exact Nat.mod_lt _ (by norm_num)
      · exact ih (n / 10) d h2

theorem natDigitsRev_foldr (fuel : Nat) :
    ∀ n, n ≤ fuel →
      (natDigitsRev fuel n).foldr (fun d acc => 10 * acc + d) 0 = n := by
  induction fuel with
  | zero => intro n hn; interval_cases n; simp [natDigitsRev]
  | succ f ih =>
    intro n hn
    by_cases h : n = 0
    · simp [natDigitsRev, h]
    · have hdiv : n / 10 ≤ f := by
        have h1 : n / 10 < n := Nat.div_lt_self (Nat.pos_of_ne_zero h) (by norm_num)
        omega
      simp only [natDigitsRev, h, if_neg, if_false, List.foldr_cons, ih (n / 10) hdiv]
      omega

theorem digitVal_digitChr {d : Nat} (h : d < 10) : digitVal (digitChr d) = d := by
  interval_cases d <;> decide

theorem isDigitChr_digitChr {d : Nat} (h : d < 10) : isDigitChr (digitChr d) = true := by
  interval_cases d <;> decide

theorem valBE_renderNat (n : Nat) : valBE (renderNat n) = n := by
  by_cases h : n = 0
  · subst h; decide
  · show valBE (renderNat n) = n
    have hfold := natDigitsRev_foldr (n + 1) n (Nat.le_succ n)
    have hlt := natDigitsRev_lt_ten (n + 1) n
    simp only [renderNat, h, if_neg, if_false, valBE, List.foldl_reverse]
    rw [List.foldr_map]
    calc (natDigitsRev (n + 1) n).foldr (fun c acc => 10 * acc + digitVal (digitChr c)) 0
        = (natDigitsRev (n + 1) n).foldr (fun d acc => 10 * acc + d) 0 := by
          apply List.foldr_ext  -- congruence over members
          intro d hd acc
          rw [digitVal_digitChr (hlt d hd)]
      _ = n := hfold

theorem renderNat_all_digit (n : Nat) : ∀ c ∈ renderNat n, isDigitChr c = true := by
  intro c hc
  by_cases h : n = 0
  · subst h; simp [renderNat] at hc; subst hc; decide
  · simp only [renderNat, h, if_neg, if_false, List.mem_reverse, List.mem_map] at hc
    obtain ⟨d, hd, rfl⟩ := hc
    exact isDigitChr_digitChr (natDigitsRev_lt_ten (n + 1) n d hd)

theorem renderNat_ne_nil (n : Nat) : renderNat n ≠ [] := by
  by_cases h : n = 0
  · subst h; decide
  · simp only [renderNat, h, if_neg, if_false]
    intro hcon
    rw [List.reverse_eq_nil_iff, List.map_eq_nil_iff] at hcon
    have : (natDigitsRev (n + 1) n).foldr (fun d acc => 10 * acc + d) 0 = n :=
      natDigitsRev_foldr (n + 1) n (Nat.le_succ n)
    rw [hcon] at this
    simp at this
    exact h this.symm

theorem takeWhile_append_of_all {p : Char → Bool} {l r : Str}
    (h : ∀ c ∈ l, p c = true) :
    (l ++ r).takeWhile p = l ++ r.takeWhile p := by
  induction l with
  | nil => simp
  | cons c cs ih =>
    have hc := h c (List.mem_cons_self c cs)
    simp only [List.cons_append, List.takeWhile_cons, hc, if_true]
    rw [ih (fun x hx => h x (List.mem_cons_of_mem c hx))]

theorem readDigitRun_renderNat (n : Nat) {r : Str}
    (hr : ∀ c, r.head? = some c → isDigitChr c = false) :
    readDigitRun (renderNat n ++ r) = n := by
  have htw : (renderNat n ++ r).takeWhile isDigitChr = renderNat n ++ r.takeWhile isDigitChr :=
    takeWhile_append_of_all (renderNat_all_digit n)
  have hr2 : r.takeWhile isDigitChr = [] := by
    cases r with
    | nil => rfl
    | cons c cs =>
      have := hr c (by simp)
      simp only [List.takeWhile_cons, this]; rfl
  show valBE ((renderNat n ++ r).takeWhile isDigitChr) = n
  rw [htw, hr2, List.append_nil]
  exact valBE_renderNat n

theorem digit_ne_plus {c : Char} (h : isDigitChr c = true) : c ≠ '+' := by
  intro hcon
  subst hcon
  exact absurd h (by decide)

theorem findPlusDigits_cons_ne {c : Char} (hc : ¬c = '+') (rest : Str) :
    findPlusDigits (c :: rest) = findPlusDigits rest := by
  simp [findPlusDigits, hc]

theorem findPlusDigits_append {l r : Str} (h : ∀ c ∈ l, c ≠ '+') :
    findPlusDigits (l ++ r) = findPlusDigits r := by
  induction l with
  | nil => rfl
  | cons c cs ih =>
    rw [List.cons_append, findPlusDigits_cons_ne (h c (List.mem_cons_self c cs))]
    exact ih (fun x hx => h x (List.mem_cons_of_mem c hx))

theorem findPlusDigits_at_digit {d : Char} {rest : Str} (hd : isDigitChr d = true) :
    findPlusDigits ('+' :: d :: rest) = some (readDigitRun (d :: rest)) := by
  simp [findPlusDigits, hd]

theorem findPlusDigits_renderHeader (h : Hunk) :
    findPlusDigits (renderHeader h) = some h.newStart := by
  have hshape : renderHeader h =
      ('@' :: '@' :: ' ' :: '-' ::
        (renderNat h.oldStart ++ ',' :: (renderNat h.oldCount ++ [' ']))) ++
        '+' :: (renderNat h.newStart ++ ',' :: (renderNat h.newCount ++ (" @@").data)) := by
    simp [renderHeader]
  have hpre : ∀ c ∈ '@' :: '@' :: ' ' :: '-' ::
      (renderNat h.oldStart ++ ',' :: (renderNat h.oldCount ++ [' '])), c ≠ '+' := by
    intro c hc
    simp only [List.mem_cons, List.mem_append, List.mem_singleton] at hc
    rcases hc with rfl | rfl | rfl | rfl | hd | rfl | hd | (rfl | hnil)
    · decide
    · decide
    · decide
    · decide
    · exact digit_ne_plus (renderNat_all_digit _ _ hd)
    · decide
    · exact digit_ne_plus (renderNat_all_digit _ _ hd)
    · decide
    · simp at hnil
  rw [hshape, findPlusDigits_append hpre]
  obtain ⟨d, ds, hds⟩ : ∃ d ds, renderNat h.newStart = d :: ds := by
    cases hrn : renderNat h.newStart with
    | nil => exact absurd hrn (renderNat_ne_nil h.newStart)
    | cons d ds => exact ⟨d, ds, rfl⟩
  have hd : isDigitChr d = true :=
    renderNat_all_digit h.newStart d (by rw [hds]; exact List.mem_cons_self d ds)
  rw [hds, List.cons_append, findPlusDigits_at_digit hd, ← List.cons_append, ← hds]
  rw [readDigitRun_renderNat h.newStart
    (by intro c hc; simp only [List.head?_cons, Option.some_inj] at hc; subst hc; decide)]

theorem splitNl_nlfree {l : Str} (h : ∀ c ∈ l, c ≠ '\n') : splitNl l = [l] := by
  induction l with
  | nil => rfl
  | cons c cs ih =>
    have hc := h c (List.mem_cons_self c cs)
    have := ih (fun x hx => h x (List.mem_cons_of_mem c hx))
    simp only [splitNl, hc, if_neg, if_false, this]

theorem splitNl_append_nl {l r : Str} (h : ∀ c ∈ l, c ≠ '\n') :
    splitNl (l ++ '\n' :: r) = l :: splitNl r := by
  induction l with
  | nil => simp [splitNl]
  | cons c cs ih =>
    have hc := h c (List.mem_cons_self c cs)
    have hcs := ih (fun x hx => h x (List.mem_cons_of_mem c hx))
    simp only [List.cons_append, splitNl, hc, if_neg, if_false]
    rw [show cs.append ('\n' :: r) = cs ++ '\n' :: r from rfl, hcs]

theorem splitNl_intercalateNl {L : List Str} (hne : L ≠ [])
    (h : ∀ l ∈ L, ∀ c ∈ l, c ≠ '\n') : splitNl (intercalateNl L) = L := by
  induction L with
  | nil => exact absurd rfl hne
  | cons l rest ih =>
    cases rest with
    | nil => exact splitNl_nlfree (h l (List.mem_cons_self l []))
    | cons m t =>
      have hstep : intercalateNl (l :: m :: t) = l ++ '\n' :: intercalateNl (m :: t) := rfl
      rw [hstep, splitNl_append_nl (h l (List.mem_cons_self l (m :: t)))]
      rw [ih (by simp) (fun x hx => h x (List.mem_cons_of_mem l hx))]

theorem parseMLLines_body (ls : List HunkLine) (rest : List Str) (cur : Nat) :
    parseMLLines (ls.map renderHunkLine ++ rest) cur =
      amendHunkSteps cur ls ++ parseMLLines rest (amendEndCur cur ls) := by
  induction ls generalizing cur with
  | nil => simp [amendHunkSteps, amendEndCur]
  | cons hl tl ih =>
    cases hl with
    | add s =>
      by_cases hpp : strStarts ('+' :: ['+']) s = true
      · simp [renderHunkLine, parseMLLines, strStarts, hpp, amendHunkSteps, amendEndCur, ih]
      · simp [renderHunkLine, parseMLLines, strStarts, hpp, amendHunkSteps, amendEndCur, ih]
    | del s =>
      by_cases hmm : strStarts ('-' :: ['-']) s = true
      · simp [renderHunkLine, parseMLLines, strStarts, hmm, amendHunkSteps, amendEndCur, ih]
      · simp [renderHunkLine, parseMLLines, strStarts, hmm, amendHunkSteps, amendEndCur, ih]
    | ctx s =>
      simp [renderHunkLine, parseMLLines, strStarts, amendHunkSteps, amendEndCur, ih]
    | nonl =>
      have hr : renderHunkLine HunkLine.nonl = '\\' :: (" No newline at end of file").data := by
        decide
      simp [hr, parseMLLines, strStarts, amendHunkSteps, amendEndCur, ih]

theorem parseMLLines_hunk (h : Hunk) (rest : List Str) (cur : Nat) :
    parseMLLines ((renderHeader h :: h.lines.map renderHunkLine) ++ rest) cur =
      amendHunkSteps h.newStart h.lines ++
        parseMLLines rest (amendEndCur h.newStart h.lines) := by
  have hat : strStarts (('@' : Char) :: ['@']) (renderHeader h) = true := by
    have hshape : renderHeader h = '@' :: '@' :: (' ' :: '-' ::
        (renderNat h.oldStart ++ ',' :: (renderNat h.oldCount ++ ' ' :: '+' ::
          (renderNat h.newStart ++ ',' :: (renderNat h.newCount ++ (" @@").data))))) := rfl
    rw [hshape]
    simp [strStarts]
  rw [List.cons_append]
  simp only [parseMLLines, hat, if_true, findPlusDigits_renderHeader h]
  exact parseMLLines_body h.lines rest h.newStart

theorem parseMLLines_hunks (hs : List Hunk) (cur : Nat) :
    parseMLLines (renderPatchLines hs) cur = amendMarks hs := by
  induction hs generalizing cur with
  | nil => rfl
  | cons h t ih =>
    have hsplit : renderPatchLines (h :: t) =
        (renderHeader h :: h.lines.map renderHunkLine) ++ renderPatchLines t := by
      simp [renderPatchLines]
    rw [hsplit, parseMLLines_hunk, ih]
    simp [amendMarks]

theorem digit_ne_nl {c : Char} (h : isDigitChr c = true) : c ≠ '\n' := by
  intro hcon
  subst hcon
  exact absurd h (by decide)

theorem renderHeader_nlfree (h : Hunk) : ∀ c ∈ renderHeader h, c ≠ '\n' := by
  have hshape : renderHeader h = '@' :: '@' :: (' ' :: '-' ::
      (renderNat h.oldStart ++ ',' :: (renderNat h.oldCount ++ ' ' :: '+' ::
        (renderNat h.newStart ++ ',' :: (renderNat h.newCount ++ (" @@").data))))) := rfl
  intro c hc
  rw [hshape] at hc
  simp only [List.mem_cons, List.mem_append] at hc
  rcases hc with rfl | rfl | rfl | rfl | hd | rfl | hd | rfl | rfl | hd | rfl | hd |
    (rfl | rfl | rfl | hnil)
  · decide
  · decide
  · decide
  · decide
  · exact digit_ne_nl (renderNat_all_digit _ _ hd)
  · decide
  · exact digit_ne_nl (renderNat_all_digit _ _ hd)
  · decide
  · decide
  · exact digit_ne_nl (renderNat_all_digit _ _ hd)
  · decide
  · exact digit_ne_nl (renderNat_all_digit _ _ hd)
  · decide
  · decide
  · decide
  · simp at hnil

theorem renderHunkLine_nlfree {hl : HunkLine} (h : hunkLineNlFree hl = true) :
    ∀ c ∈ renderHunkLine hl, c ≠ '\n' := by
  have hstr : ∀ {s : Str}, strNlFree s = true → ∀ c ∈ s, c ≠ '\n' := by
    intro s hs c hc
    have := List.all_eq_true.mp hs c hc
    simpa using this
  cases hl with
  | add s =>
    intro c hc
    rcases List.mem_cons.mp hc with rfl | hmem
    · decide
    · exact hstr h c hmem
  | del s =>
    intro c hc
    rcases List.mem_cons.mp hc with rfl | hmem
    · decide
    · exact hstr h c hmem
  | ctx s =>
    intro c hc
    rcases List.mem_cons.mp hc with rfl | hmem
    · decide
    · exact hstr h c hmem
  | nonl =>
    intro c hc
    have hall : (renderHunkLine HunkLine.nonl).all (fun c => c ≠ '\n') = true := by decide
    simpa using List.all_eq_true.mp hall c hc

theorem renderPatchLines_nlfree {hs : List Hunk} (hnl : patchNlFree hs = true) :
    ∀ l ∈ renderPatchLines hs, ∀ c ∈ l, c ≠ '\n' := by
  intro l hl
  simp only [renderPatchLines, List.mem_flatMap] at hl
  obtain ⟨h, hh, hline⟩ := hl
  have hhl : h.lines.all hunkLineNlFree = true :=
    List.all_eq_true.mp hnl h hh
  rcases List.mem_cons.mp hline with rfl | hbody
  · exact renderHeader_nlfree h
  · obtain ⟨bl, hbl, rfl⟩ := List.mem_map.mp hbody
    exact renderHunkLine_nlfree (List.all_eq_true.mp hhl bl hbl)

theorem renderPatch_ne_nil (h : Hunk) (t : List Hunk) : renderPatch (h :: t) ≠ [] := by
  have hne : renderHeader h ≠ [] := by
    intro hcon
    have : ('@' : Char) ∈ renderHeader h := by
      rw [show renderHeader h = '@' :: '@' :: (' ' :: '-' ::
        (renderNat h.oldStart ++ ',' :: (renderNat h.oldCount ++ ' ' :: '+' ::
          (renderNat h.newStart ++ ',' :: (renderNat h.newCount ++ (" @@").data))))) from rfl]
      exact List.mem_cons_self _ _
    rw [hcon] at this
    simp at this
  have hsplit : renderPatchLines (h :: t) =
      renderHeader h :: (h.lines.map renderHunkLine ++ renderPatchLines t) := by
    simp [renderPatchLines]
  rw [renderPatch, hsplit]
  cases hrest : h.lines.map renderHunkLine ++ renderPatchLines t with
  | nil => exact hne
  | cons m t2 =>
    intro hcon
    rw [show intercalateNl (renderHeader h :: m :: t2) =
      renderHeader h ++ '\n' :: intercalateNl (m :: t2) from rfl] at hcon
    rcases List.append_eq_nil.mp hcon with ⟨_, h2⟩
    simp at h2

theorem mem_of_getLastQ {l : List α} {a : α} (h : l.getLast? = some a) : a ∈ l := by
  induction l with
  | nil => simp [List.getLast?] at h
  | cons x xs ih =>
    cases xs with
    | nil =>
      simp only [List.getLast?_singleton, Option.some_inj] at h
      subst h; exact List.mem_cons_self _ _
    | cons y ys =>
      rw [List.getLast?_cons_cons] at h
      exact List.mem_cons_of_mem x (ih h)

theorem getLastQ_of_ne_nil {l : List α} (h : l ≠ []) : ∃ a, l.getLast? = some a := by
  induction l with
  | nil => exact absurd rfl h
  | cons x xs ih =>
    cases xs with
    | nil => exact ⟨x, rfl⟩
    | cons y ys =>
      obtain ⟨a, ha⟩ := ih (by simp)
      exact ⟨a, by rw [List.getLast?_cons_cons]; exact ha⟩

theorem idToFindingLast_of_mem {review : ConsolidatedReview} {fid : Str}
    (h : fid ∈ review.findings.map (fun f => f.id)) :
    ∃ f, idToFindingLast review fid = some f ∧ f.id = fid := by
  obtain ⟨g, hg, hgid⟩ := List.mem_map.mp h
  have hne : review.findings.filter (fun f => f.id = fid) ≠ [] := by
    intro hcon
    have : g ∈ review.findings.filter (fun f => f.id = fid) :=
      List.mem_filter.mpr ⟨hg, by simp [hgid]⟩
    rw [hcon] at this
    simp at this
  obtain ⟨f, hf⟩ := getLastQ_of_ne_nil hne
  refine ⟨f, hf, ?_⟩
  have := List.mem_filter.mp (mem_of_getLastQ hf)
  simpa using this.2

theorem crossKept_mem_findings {review : ConsolidatedReview}
    {A : List (Str × List Assessment)} {t : ℚ}
    {x : ConsolidatedFinding × ℚ × ℚ} (hx : x ∈ crossKept review A t) :
    x.1 ∈ review.findings := by
  obtain ⟨fid, _, hstep⟩ := List.mem_filterMap.mp hx
  cases hlook : idToFindingLast review fid with
  | none => rw [hlook] at hstep; simp at hstep
  | some f =>
    rw [hlook] at hstep
    have hf : f ∈ review.findings := by
      have := List.mem_filter.mp (mem_of_getLastQ hlook)
      exact this.1
    cases hkeep : crossKeepStep A.length t (crossVotes A fid) with
    | none => rw [hkeep] at hstep; simp at hstep
    | some p =>
      rw [hkeep] at hstep
      simp only [Option.map_some', Option.some_inj] at hstep
      rw [← hstep]
      exact hf

theorem map_id_filterMap_keep (review : ConsolidatedReview)
    (A : List (Str × List Assessment)) (t : ℚ) :
    ∀ (l : List Str),
      (∀ fid ∈ l, ∃ f, idToFindingLast review fid = some f ∧ f.id = fid) →
      ((l.filterMap (fun fid =>
          match idToFindingLast review fid with
          | some f =>
            (crossKeepStep A.length t (crossVotes A fid)).map (fun p => (f, p))
          | none => none)).map (fun x => x.1.id)) =
        l.filter (fun fid => (crossKeepStep A.length t (crossVotes A fid)).isSome) := by
  intro l
  induction l with
  | nil => intro _; rfl
  | cons fid rest ih =>
    intro hl
    obtain ⟨f, hf, hfid⟩ := hl fid (List.mem_cons_self _ _)
    have hrest := ih (fun g hg => hl g (List.mem_cons_of_mem _ hg))
    cases hkeep : crossKeepStep A.length t (crossVotes A fid) with
    | none =>
      simp only [List.filterMap_cons, hf, hkeep, Option.map_none', List.filter_cons,
        Option.isSome_none, Bool.false_eq_true, if_false, hrest]
    | some p =>
      simp only [List.filterMap_cons, hf, hkeep, Option.map_some', List.filter_cons,
        Option.isSome_some, if_true, List.map_cons, hrest, hfid]

theorem map_id_crossKept (review : ConsolidatedReview)
    (A : List (Str × List Assessment)) (t : ℚ) :
    (crossKept review A t).map (fun x => x.1.id) =
      (review.findings.map (fun f => f.id)).filter
        (fun fid => (crossKeepStep A.length t (crossVotes A fid)).isSome) :=
  map_id_filterMap_keep review A t _ (fun fid hfid => idToFindingLast_of_mem hfid)

/-- C1: the claim says a merged cluster's consensus_score is the number of
DISTINCT contributing agents divided by total_agents.  `_merge_cluster`
instead divides the cluster SIZE by total_agents: a cluster of two similar
findings from the same single agent scores 2/3 with three agents run
(the claim says 1/3), and 2.0 with one agent run — outside the documented
[0, 1] range.  (`aggregate_findings` in review.py deduplicates agents and
satisfies the claim; the aggregator path is the code bug.) -/
theorem c1_merge_cluster_counts_cluster_size :
    (merge_cluster [((("agent-A").data), rfCrit), ((("agent-A").data), rfCrit2)] 3).map
        (fun f => f.consensus_score) = some (2 / 3) ∧
    (merge_cluster [((("agent-A").data), rfCrit), ((("agent-A").data), rfCrit2)] 1).map
        (fun f => f.consensus_score) = some 2 :=
  ⟨by with_unfolding_all decide, by with_unfolding_all decide⟩

/-- C2: the claim (and the source's own `# Use most severe rating` comment)
says a cluster merges to the MOST severe member severity.  `_merge_cluster`
takes `max` keyed by `list(Severity).index`, and the enum declares critical
FIRST (index 0), so the max picks the LEAST severe member: a cluster with a
critical and a nitpick finding merges to nitpick. -/
theorem c2_merge_cluster_least_severe :
    (merge_cluster [((("agent-1").data), rfCrit), ((("agent-2").data), rfNit)] 2).map
        (fun f => f.severity) = some Severity.nitpick ∧
    severityEnumIndex Severity.critical = 0 ∧ severityEnumIndex Severity.nitpick = 3 :=
  ⟨by with_unfolding_all decide, rfl, rfl⟩

/-- C3: the claim says valid_ratio divides by the votes RECEIVED for the
finding, so one valid vote out of one received keeps the finding at any
threshold ≤ 1.  The code divides by `n_agents = len(all_assessments)`:
with three participating agents of which only one voted (valid) on `f1`,
the code computes 1/3 < 0.5 and DROPS the finding the claim says is kept. -/
theorem c3_valid_ratio_divides_by_all_agents :
    (apply_cross_review crReview assessPartial (1 / 2)).findings = [] ∧
    crossVotes assessPartial (("f1").data) = [(.pybool true, 1)] ∧
    validFrac assessPartial.length (crossVotes assessPartial (("f1").data)) = 1 / 3 :=
  ⟨by with_unfolding_all decide, by with_unfolding_all decide, by with_unfolding_all decide⟩

/-- C4: the claim (and the repository's own test
`test_valid_field_string_coerced_to_bool`) says a vote whose `valid` field
is the literal string "false" counts as an invalid vote, so a finding voted
"false" by everyone is dropped at threshold 0.5, exactly as with boolean
false.  The code never coerces: `sum(1 for v, _ in votes if v)` counts the
truthy nonempty string "false" as a VALID vote, so the finding is KEPT,
unlike with boolean false. -/
theorem c4_string_false_counts_as_valid :
    (apply_cross_review crReview assessStrFalse (1 / 2)).findings = [cf1] ∧
    (apply_cross_review crReview assessBoolFalse (1 / 2)).findings = [] ∧
    pyTruthy (.pystr (("false").data)) = true :=
  ⟨by with_unfolding_all decide, by with_unfolding_all decide, rfl⟩

/-- C5 counterexample: the claim's path normalization strips a leading
`./` PREFIX, but the code's `lstrip("./")` removes ALL leading `.` and `/`
characters.  Findings on `.env` and `env` (otherwise identical after
trimming) are judged similar by the code and dissimilar by the claim. -/
theorem c5_counterexample_lstrip_dot_slash :
    raw_findings_similar r5a r5b 1 = true ∧
    specRawFindingsSimilar r5a r5b 1 = false :=
  ⟨by with_unfolding_all decide, by with_unfolding_all decide⟩

/-- C5 (amended): `_raw_findings_similar(a, b, t)` is true iff ALL of:
paths equal after trim/backslash-conversion/removal of all leading `.` and
`/` characters; categories equal after lowercasing AND trimming (missing or
empty category defaulting to "logic"); line ranges within tolerance 5 (end
defaulting to start, missing start defaulting to 1); and
0.6·title_similarity + 0.4·description_similarity ≥ t computed on TRIMMED
title/description (missing fields defaulting to empty), with the stated
empty-string conventions. -/
theorem c5_raw_findings_similar_iff (raw1 raw2 : RawFinding) (t : ℚ) :
    raw_findings_similar raw1 raw2 t = true ↔
      (normalize_path (raw1.file_path.getD []) = normalize_path (raw2.file_path.getD []) ∧
        pyStrip (pyLower (pyOrStr raw1.category (("logic").data))) =
          pyStrip (pyLower (pyOrStr raw2.category (("logic").data))) ∧
        raw_lines_overlap raw1 raw2 = true ∧
        t ≤ raw_text_similarity (pyStrip (pyOrStr raw1.title []))
              (pyStrip (pyOrStr raw2.title [])) * (3 / 5) +
            raw_text_similarity (pyStrip (pyOrStr raw1.description []))
              (pyStrip (pyOrStr raw2.description [])) * (2 / 5)) := by
  by_cases h1 : normalize_path (raw1.file_path.getD []) = normalize_path (raw2.file_path.getD [])
  · by_cases h2 : pyStrip (pyLower (pyOrStr raw1.category (("logic").data))) =
        pyStrip (pyLower (pyOrStr raw2.category (("logic").data)))
    · cases h3 : raw_lines_overlap raw1 raw2
      · simp [raw_findings_similar, h1, h2, h3]
      · simp [raw_findings_similar, h1, h2, h3]
    · simp [raw_findings_similar, h1, h2]
  · simp [raw_findings_similar, h1]

/-- C6: the claim (and the repository's own test
`test_compute_review_delta_fixes_when_deleted_file_has_no_patch`) says an
unmatched previous comment on a file that is in the diff WITHOUT a
retrievable patch is classified fixed.  The code's branch chain
(`if path not in changed_files ... elif path in file_modified_lines ...`)
skips such comments entirely: they are NOT marked fixed.  (A file absent
from the diff IS marked fixed, as the second conjunct shows.) -/
theorem c6_no_patch_file_not_marked_fixed :
    (compute_review_delta [prevBin] [] [prFileBin]).fixed_findings = [] ∧
    (compute_review_delta [prevBin] [] []).fixed_findings = [prevBin] :=
  ⟨by with_unfolding_all decide, by with_unfolding_all decide⟩

/-- C7 counterexample: on the genuine unified-diff patch that removes the
line `--x` and adds the line `y` (rendered `@@ -1,1 +1,1 @@`, `---x`,
`+y`), the parser treats `---x` as context (the `not startswith("---")`
guard), producing the mark set {2}, while the claim's procedure marks the
removed line at the counter, producing {1}. -/
theorem c7_counterexample_triple_dash :
    renderPatch [cxHunk] = ("@@ -1,1 +1,1 @@\n---x\n+y").data ∧
    parse_modified_lines (("@@ -1,1 +1,1 @@\n---x\n+y").data) = [2] ∧
    claimMarks [cxHunk] = [1, 1] ∧
    (parse_modified_lines (renderPatch [cxHunk])).toFinset ≠ (claimMarks [cxHunk]).toFinset :=
  ⟨by with_unfolding_all decide, by with_unfolding_all decide,
    by with_unfolding_all decide, by with_unfolding_all decide⟩

/-- C7 (amended): on every structured unified-diff patch whose body
contents are newline-free, `_parse_modified_lines` of the rendered patch
string produces exactly the marks of the claim's procedure, AMENDED so that
an added line whose content starts with `++` and a removed line whose
content starts with `--` (rendered `+++...` / `---...`) are treated as
context lines: the counter increments past them and they are not marked. -/
theorem c7_parse_modified_lines_render (hs : List Hunk)
    (hnl : patchNlFree hs = true) :
    parse_modified_lines (renderPatch hs) = amendMarks hs := by
  cases hs with
  | nil => rfl
  | cons h t =>
    have hlines := renderPatchLines_nlfree hnl
    have hne : renderPatchLines (h :: t) ≠ [] := by simp [renderPatchLines]
    have hsplit := splitNl_intercalateNl hne hlines
    have hpne := renderPatch_ne_nil h t
    rw [show parse_modified_lines (renderPatch (h :: t)) =
      parseMLLines (splitNl (renderPatch (h :: t))) 0 by
        unfold parse_modified_lines
        rw [if_neg hpne]]
    rw [show renderPatch (h :: t) = intercalateNl (renderPatchLines (h :: t)) from rfl, hsplit]
    exact parseMLLines_hunks (h :: t) 0

/-- C7 witness: the amended theorem applied to a concrete one-hunk patch
with a context line, a removed line, two added lines and a
no-newline marker. -/
theorem c7_witness :
    patchNlFree [wHunk] = true ∧
    parse_modified_lines (renderPatch [wHunk]) = amendMarks [wHunk] :=
  ⟨by with_unfolding_all decide, c7_parse_modified_lines_render [wHunk] (by with_unfolding_all decide)⟩

/-- C8 counterexample: `aggregate_findings` over ZERO agent results returns
quality score 0.7 — the clean-review formula applied at N = 0 — not the
0.0 the claim requires (only `ReviewAggregator._compute_quality_score`
returns 0.0 at N = 0). -/
theorem c8_counterexample_zero_agents :
    (aggregate_findings [] (("r").data) 0).review_quality_score = 7 / 10 ∧
    ((7 : ℚ) / 10 ≠ 0) :=
  ⟨by with_unfolding_all decide, by norm_num⟩

/-- C8 (amended): `_compute_quality_score` returns 0.0 at N = 0 (no
exception), min(0.95, 0.7 + 0.1·N) with agents and no findings (exactly
0.9 at N = 2 and 0.95 at N = 5), and round(avg_consensus · min(1, N/3), 2)
with findings; `aggregate_findings` in review.py computes the same
formulas except that at N = 0 with no findings it yields
min(0.95, 0.7) = 0.7 rather than 0.0. -/
theorem c8_quality_score_formula :
    (∀ (reviews : List AgentReview) (findings : List ConsolidatedFinding),
      compute_quality_score reviews findings =
        if reviews = [] then 0
        else if findings = [] then
          min (19 / 20 : ℚ) (7 / 10 + (reviews.length : ℚ) * (1 / 10))
        else
          round2 (((findings.map (fun f => f.consensus_score)).sum / (findings.length : ℚ)) *
            min 1 ((reviews.length : ℚ) / 3))) ∧
    (∀ r1 r2 : AgentReview, compute_quality_score [r1, r2] [] = 9 / 10) ∧
    (∀ r1 r2 r3 r4 r5 : AgentReview,
      compute_quality_score [r1, r2, r3, r4, r5] [] = 19 / 20) ∧
    (∀ (alls : List (Str × List RawFinding × Str)) (repo : Str) (pr : Int),
      (aggregate_findings alls repo pr).review_quality_score =
        if aggregateSorted alls = [] then
          min (19 / 20 : ℚ) (7 / 10 + (alls.length : ℚ) * (1 / 10))
        else
          round2 ((((aggregateSorted alls).map (fun f => f.consensus_score)).sum /
              ((aggregateSorted alls).length : ℚ)) *
            min 1 ((alls.length : ℚ) / 3))) := by
  refine ⟨fun reviews findings => rfl, ?_, ?_, fun alls repo pr => rfl⟩
  · intro r1 r2
    show compute_quality_score [r1, r2] [] = 9 / 10
    rw [show compute_quality_score [r1, r2] [] =
      min (19 / 20 : ℚ) (7 / 10 + ((2 : ℕ) : ℚ) * (1 / 10)) from rfl]
    norm_num
  · intro r1 r2 r3 r4 r5
    rw [show compute_quality_score [r1, r2, r3, r4, r5] [] =
      min (19 / 20 : ℚ) (7 / 10 + ((5 : ℕ) : ℚ) * (1 / 10)) from rfl]
    norm_num

/-- C9 counterexample: the claim says the runner "returns the successful
results plus the list of failed agent identifiers".  Two settled batches
with the same successes but different failures (a timeout vs a raised
ValueError) produce IDENTICAL return values, so the returned value cannot
carry the failed-agent list: `AgentOrchestrator.review` returns only the
successful reviews (the failures are logged, and reported only inside the
quorum-failure signal). -/
theorem c9_counterexample_failures_not_returned :
    orchestrator_review [("a").data, ("b").data] [.success agOk, .timeout] 1 =
      orchestrator_review [("a").data, ("b").data]
        [.success agOk, .failure (("ValueError").data)] 1 ∧
    failuresOf [("a").data, ("b").data] [.success agOk, .timeout] ≠
      failuresOf [("a").data, ("b").data] [.success agOk, .failure (("ValueError").data)] :=
  ⟨rfl, by with_unfolding_all decide⟩

/-- C9 (amended): after all outcomes settle, the runner raises the typed
insufficient-agents signal iff strictly fewer outcomes succeeded than the
configured minimum, and that signal carries the success count, the minimum,
and the per-agent failure reason strings; otherwise it returns exactly the
successful reviews in order — only them, with no failed agent's exception
propagated and no failed-identifier list in the return value. -/
theorem c9_orchestrator_review_spec (agents : List Str)
    (results : List AgentOutcome) (m : Nat) :
    orchestrator_review agents results m =
      if (successesOf agents results).length < m then
        .error ⟨(successesOf agents results).length, m, failuresOf agents results⟩
      else .ok (successesOf agents results) := by
  simp only [orchestrator_review, successesOf, failuresOf, reviewCollect_eq]

/-- C10 counterexample: with two distinct input findings sharing the id
`f1`, `apply_cross_review` emits the LAST `f1`-finding once per occurrence
of the id: that finding appears twice in the output (and the first one
never appears), violating the claimed at-most-once selection. -/
theorem c10_counterexample_duplicate_ids :
    (apply_cross_review crReviewDup assessOneValid (1 / 2)).findings =
      [cf1dup, cf1dup] ∧
    cf1 ≠ cf1dup ∧ crReviewDup.findings = [cf1, cf1dup] :=
  ⟨by with_unfolding_all decide, by with_unfolding_all decide, rfl⟩

/-- C10 (amended): when the input review's finding ids are pairwise
distinct (which the producing aggregation guarantees via sequential ids),
cross-review refinement never invents or duplicates findings: every output
finding is one of the input findings by value, output ids are pairwise
distinct (so each input finding appears at most once), the identity fields
id/repo/pr_number/agent_count/created_at are unchanged, and an empty
assessment list returns the input review unchanged. -/
theorem c10_apply_cross_review_selection (review : ConsolidatedReview)
    (A : List (Str × List Assessment)) (t : ℚ)
    (hids : (review.findings.map (fun f => f.id)).Nodup) :
    (∀ f ∈ (apply_cross_review review A t).findings, f ∈ review.findings) ∧
    ((apply_cross_review review A t).findings.map (fun f => f.id)).Nodup ∧
    ((apply_cross_review review A t).id = review.id ∧
      (apply_cross_review review A t).repo = review.repo ∧
      (apply_cross_review review A t).pr_number = review.pr_number ∧
      (apply_cross_review review A t).agent_count = review.agent_count ∧
      (apply_cross_review review A t).created_at = review.created_at) ∧
    (A = [] → apply_cross_review review A t = review) := by
  by_cases hA : A = []
  · subst hA
    have hrw : apply_cross_review review [] t = review := rfl
    rw [hrw]
    exact ⟨fun f hf => hf, hids, ⟨rfl, rfl, rfl, rfl, rfl⟩, fun _ => rfl⟩
  · have hfind : (apply_cross_review review A t).findings =
        (crossSortedKept review A t).map (fun x => x.1) := by
      simp [apply_cross_review, hA]
    refine ⟨?_, ?_, ?_, fun hcon => absurd hcon hA⟩
    · intro f hf
      rw [hfind] at hf
      obtain ⟨x, hx, rfl⟩ := List.mem_map.mp hf
      exact crossKept_mem_findings ((mem_pySort _ _ _).mp hx)
    · rw [hfind]
      have hcomp : ((crossSortedKept review A t).map (fun x => x.1)).map (fun f => f.id) =
          (crossSortedKept review A t).map (fun x => x.1.id) := by
        rw [List.map_map]
        rfl
      rw [hcomp]
      have hperm := (pySort_perm
        (fun x y : ConsolidatedFinding × ℚ × ℚ =>
          decide (x.2.2 < y.2.2) ||
            (decide (x.2.2 = y.2.2) &&
              decide (severityOrderKey x.1.severity ≤ severityOrderKey y.1.severity)))
        (crossKept review A t)).map (fun x => x.1.id)
      refine (List.Perm.nodup_iff hperm).mpr ?_
      rw [map_id_crossKept]
      exact hids.filter _
    · refine ⟨?_, ?_, ?_, ?_, ?_⟩ <;> simp [apply_cross_review, hA]

/-- C10 witness: the amended theorem applied to the concrete review holding
the single finding `f1` and one valid vote on it. -/
theorem c10_witness :
    ((crReview.findings.map (fun f => f.id)).Nodup) ∧
    ((∀ f ∈ (apply_cross_review crReview assessOneValid (1 / 2)).findings,
        f ∈ crReview.findings) ∧
      ((apply_cross_review crReview assessOneValid (1 / 2)).findings.map
        (fun f => f.id)).Nodup ∧
      ((apply_cross_review crReview assessOneValid (1 / 2)).id = crReview.id ∧
        (apply_cross_review crReview assessOneValid (1 / 2)).repo = crReview.repo ∧
        (apply_cross_review crReview assessOneValid (1 / 2)).pr_number = crReview.pr_number ∧
        (apply_cross_review crReview assessOneValid (1 / 2)).agent_count = crReview.agent_count ∧
        (apply_cross_review crReview assessOneValid (1 / 2)).created_at = crReview.created_at) ∧
      (assessOneValid = [] →
        apply_cross_review crReview assessOneValid (1 / 2) = crReview)) :=
  ⟨by with_unfolding_all decide,
    c10_apply_cross_review_selection crReview assessOneValid (1 / 2)
      (by with_unfolding_all decide)⟩
